import Mathlib

/-!
Verification of the sfncli task-execution engine (Clever/sfncli).

This file shallowly embeds the parts of the Go program that the
specification talks about:

* `cmd/sfncli/runner.go` — `TaskRunner.Process`, `taskOutputFromStdout`,
  `parseCustomErrorFromStdout`, `handleSignals`, `sigTermAndThenKill`;
* `cmd/sfncli/error_names.go` — the closed set of task-failure categories
  and `TaskRunner.sendTaskFailure`;
* the heartbeat functions `taskHeartbeatLoop` / `sendTaskHeartbeat`;
* the `truncateString` helper of the SDK-v2 variant of `sendTaskFailure`.

Modelling conventions:

* Go strings are lists of unicode code points (`GoStr`), except in the
  `truncateString` development where byte-level UTF-8 matters and strings
  are lists of bytes (`Bytes`).
* `encoding/json` parsing of a raw string is an oracle parameter
  (`parse : GoStr → Option GoJson`); `none` models a syntax error.  The
  behaviour of `json.Unmarshal` on a *parsed* value (into
  `map[string]interface{}` or into the `TaskFailureCustom` struct) is
  modelled concretely, including the stdlib quirk that a JSON `null`
  unmarshals into a nil map without error.
* Calls to the Step Functions API are collected in a trace (`SFNCall`);
  a Go runtime panic is a distinguished outcome with an empty remaining
  trace.
-/

namespace Sfncli

/-! ### Go strings as lists of unicode code points -/

/-- A Go string, viewed as its sequence of unicode code points (runes). -/
abbrev GoStr := List Nat

/-- Convert a Lean string literal into the rune-list representation. -/
def strToGoStr (s : String) : GoStr := s.data.map Char.toNat

/-- `unicode.IsSpace` from the Go standard library: the White_Space
code points (Latin-1 fast path plus the unicode table). -/
def goIsSpace (c : Nat) : Bool :=
  (9 ≤ c && c ≤ 13) || c = 32 || c = 0x85 || c = 0xA0 || c = 0x1680 ||
  (0x2000 ≤ c && c ≤ 0x200A) || c = 0x2028 || c = 0x2029 || c = 0x202F ||
  c = 0x205F || c = 0x3000

/-- `strings.TrimSpace`: drop leading and trailing white-space runes. -/
def trimSpace (s : GoStr) : GoStr :=
  (((s.dropWhile goIsSpace).reverse).dropWhile goIsSpace).reverse

/-- `strings.Split(s, "\n")`: split at every newline; the result always
has at least one (possibly empty) element. -/
def splitNL : GoStr → List GoStr
  | [] => [[]]
  | c :: rest =>
    if c = 10 then [] :: splitNL rest
    else
      match splitNL rest with
      | [] => [[c]]
      | l :: ls => (c :: l) :: ls

/-- `taskOutputFromStdout` (runner.go): trim surrounding white space from
the whole stdout capture, split on newlines, and return the final line.
The `""` default covers the `len(stdoutLines) > 0` guard of the source,
which `strings.Split` in fact always satisfies. -/
def taskOutputFromStdout (stdout : GoStr) : GoStr :=
  ((splitNL (trimSpace stdout)).getLast?).getD []

/-- Modelled from the spec's words (for the refinement claim about
`taskOutputFromStdout`): "the last newline-delimited, non-empty line" of
a string — split on newlines, discard empty lines, take the last one
(`""` when every line is empty). -/
def lastNonEmptyLine (stdout : GoStr) : GoStr :=
  (((splitNL stdout).filter (fun l => !l.isEmpty)).getLast?).getD []

/-! ### Bytes and UTF-8: the `truncateString` helper

`truncateString` lives in the SDK-v2 variant of `sendTaskFailure`; it
operates on the raw bytes of a Go string, so here strings are byte
lists.  The UTF-8 acceptor below follows Go's `unicode/utf8` tables:
1–4 byte sequences, no surrogates, no overlong encodings, max U+10FFFF.
-/

/-- A Go string viewed as its raw bytes. -/
abbrev Bytes := List Nat

/-- A UTF-8 continuation byte (`0x80–0xBF`). -/
def isCont (b : Nat) : Bool := 0x80 ≤ b && b ≤ 0xBF

/-- Length of the valid UTF-8 sequence starting at the head of the list,
or `none` if the head does not start a valid sequence (Go's
`utf8.DecodeRune` returning `RuneError` with width 1). -/
def utf8SeqLen : Bytes → Option Nat
  | [] => none
  | b0 :: rest =>
    if b0 < 0x80 then some 1
    else if 0xC2 ≤ b0 && b0 ≤ 0xDF then
      match rest with
      | b1 :: _ => if isCont b1 then some 2 else none
      | [] => none
    else if b0 = 0xE0 then
      match rest with
      | b1 :: b2 :: _ =>
        if (0xA0 ≤ b1 && b1 ≤ 0xBF) && isCont b2 then some 3 else none
      | _ => none
    else if (0xE1 ≤ b0 && b0 ≤ 0xEC) || b0 = 0xEE || b0 = 0xEF then
      match rest with
      | b1 :: b2 :: _ => if isCont b1 && isCont b2 then some 3 else none
      | _ => none
    else if b0 = 0xED then
      match rest with
      | b1 :: b2 :: _ =>
        if (0x80 ≤ b1 && b1 ≤ 0x9F) && isCont b2 then some 3 else none
      | _ => none
    else if b0 = 0xF0 then
      match rest with
      | b1 :: b2 :: b3 :: _ =>
        if ((0x90 ≤ b1 && b1 ≤ 0xBF) && isCont b2) && isCont b3 then some 4 else none
      | _ => none
    else if 0xF1 ≤ b0 && b0 ≤ 0xF3 then
      match rest with
      | b1 :: b2 :: b3 :: _ =>
        if (isCont b1 && isCont b2) && isCont b3 then some 4 else none
      | _ => none
    else if b0 = 0xF4 then
      match rest with
      | b1 :: b2 :: b3 :: _ =>
        if ((0x80 ≤ b1 && b1 ≤ 0x8F) && isCont b2) && isCont b3 then some 4 else none
      | _ => none
    else none

set_option maxHeartbeats 1000000 in
theorem utf8SeqLen_bounds : ∀ {l : Bytes} {w : Nat}, utf8SeqLen l = some w →
    1 ≤ w ∧ w ≤ l.length := by
  intro l w h
  match l with
  | [] => simp [utf8SeqLen] at h
  | b0 :: rest =>
    simp only [utf8SeqLen] at h
    repeat' split at h
    all_goals
      first
      | exact Option.noConfusion h
      | (injection h with heq; subst heq;
         simp only [List.length_cons];
         omega)

/-- Whether a byte list is entirely valid UTF-8 (Go `utf8.ValidString`). -/
def validUTF8 (l : Bytes) : Bool :=
  match h : utf8SeqLen l with
  | some w => validUTF8 (l.drop w)
  | none => l.isEmpty
  termination_by l.length
  decreasing_by
    have := utf8SeqLen_bounds h
    simp only [List.length_drop]
    omega

/-- `strings.ToValidUTF8(s, "")`: drop every byte that is not part of a
valid UTF-8 sequence, keeping valid sequences untouched. -/
def toValidUTF8 (l : Bytes) : Bytes :=
  match h : utf8SeqLen l with
  | some w => l.take w ++ toValidUTF8 (l.drop w)
  | none =>
    match l with
    | [] => []
    | _ :: rest => toValidUTF8 rest
  termination_by l.length
  decreasing_by
    · have := utf8SeqLen_bounds h
      simp only [List.length_drop]
      omega
    · simp

/-- `truncateString` (SDK-v2 `sendTaskFailure` helper): return `s` when it
already fits in `maxLength` bytes; otherwise cut to
`maxLength - len(suffix)` bytes, repair the cut with `ToValidUTF8`, and
append the truncation indicator.  `none` models the Go runtime panic
(`slice bounds out of range`) that the subtraction produces when the
suffix is longer than `maxLength` (Go ints, not Nat subtraction). -/
def truncateString (s : Bytes) (maxLength : Nat) (suffix : Bytes) : Option Bytes :=
  if s.length ≤ maxLength then some s
  else if suffix.length ≤ maxLength then
    some (toValidUTF8 (s.take (maxLength - suffix.length)) ++ suffix)
  else none

/-- The literal truncation marker `"[truncated]"` used by `sendTaskFailure`
(all ASCII, so its bytes coincide with its code points). -/
def truncationMarker : Bytes := strToGoStr "[truncated]"

/-! ### JSON values and the `encoding/json` behaviours the runner relies on

Syntactic JSON parsing of a raw string is abstracted into an oracle
`parse : GoStr → Option GoJson` (`none` = syntax error); what
`json.Unmarshal` then does with the parsed value is modelled concretely.
-/

/-- A parsed JSON value.  Numbers keep their literal text: the runner
never computes with them. -/
inductive GoJson where
  | null
  | bool (b : Bool)
  | num (lit : GoStr)
  | str (s : GoStr)
  | arr (elems : List GoJson)
  | obj (fields : List (GoStr × GoJson))

/-- Result of `json.Unmarshal` into a `map[string]interface{}`:
a JSON `null` stores the zero value — it leaves the map nil *without*
error — while a syntax error or any other non-object top-level value is
an `UnmarshalTypeError`. -/
inductive UnmarshalMapResult where
  | jsonErr
  | nilMap
  | objMap (fields : List (GoStr × GoJson))

def unmarshalMap : Option GoJson → UnmarshalMapResult
  | none => .jsonErr
  | some .null => .nilMap
  | some (.obj fs) => .objMap fs
  | some _ => .jsonErr

/-- Go-map lookup on an object decoded by `encoding/json`: for duplicate
keys the later binding overwrote the earlier one, so search from the
right. -/
def mapGet (fields : List (GoStr × GoJson)) (k : GoStr) : Option GoJson :=
  (fields.reverse.find? (fun p => p.1 == k)).map (fun p => p.2)

/-- Go-map assignment `m[k] = v` on a decoded object (with `mapGet` as
the observer, appending on the right is overwriting). -/
def mapSet (fields : List (GoStr × GoJson)) (k : GoStr) (v : GoJson) :
    List (GoStr × GoJson) := fields ++ [(k, v)]

/-- `m[k].(string)`: `some s` exactly when the key is present with a
string value (on a nil map — modelled as `[]` — every lookup misses). -/
def mapGetString (fields : List (GoStr × GoJson)) (k : GoStr) : Option GoStr :=
  match mapGet fields k with
  | some (.str s) => some s
  | _ => none

/-- The `TaskFailureCustom` struct of error_names.go, with fields tagged
`json:"error"` and `json:"cause"`. -/
structure TaskFailureCustom where
  err : GoStr
  cause : GoStr

/-- ASCII case folding, the fragment of `encoding/json`'s fold that can
ever match the all-ASCII tags `error` / `cause`. -/
def asciiLower (c : Nat) : Nat := if 65 ≤ c && c ≤ 90 then c + 32 else c

/-- One field of a JSON object decoded into `TaskFailureCustom`: a key is
matched against the struct tags up to case (`encoding/json` falls back to
case-insensitive matching), later duplicates overwrite earlier ones, and
a value of the wrong type leaves the field untouched (`Process` discards
the returned `UnmarshalTypeError`). -/
def setCustomField (acc : TaskFailureCustom) (p : GoStr × GoJson) : TaskFailureCustom :=
  if p.1.map asciiLower == strToGoStr "error" then
    match p.2 with
    | .str s => { acc with err := s }
    | _ => acc
  else if p.1.map asciiLower == strToGoStr "cause" then
    match p.2 with
    | .str s => { acc with cause := s }
    | _ => acc
  else acc

/-- `json.Unmarshal` of a parsed value into `TaskFailureCustom`; the call
site ignores the error, so every failure (syntax error, non-object top
level) leaves the zero struct. -/
def unmarshalCustom : Option GoJson → TaskFailureCustom
  | some (.obj fs) => fs.foldl setCustomField ⟨[], []⟩
  | _ => ⟨[], []⟩

/-- `parseCustomErrorFromStdout` (runner.go): unmarshal the line
`taskOutputFromStdout` extracts — and only that line — into
`TaskFailureCustom`. -/
def parseCustomErrorFromStdout (parse : GoStr → Option GoJson) (stdout : GoStr) :
    TaskFailureCustom :=
  unmarshalCustom (parse (taskOutputFromStdout stdout))

/-! ### The failure taxonomy of error_names.go -/

/-- The closed set of `TaskFailureError` types. -/
inductive TaskFailureError where
  | unknown (msg : GoStr)
  | taskInputNotJSON (input : GoStr)
  | taskInputMissingExecutionName (input : GoStr)
  | commandNotFound (path : GoStr)
  | commandKilled (stderr : GoStr)
  | commandExitedNonzero (stderr : GoStr)
  | custom (c : TaskFailureCustom)
  | taskOutputNotJSON (output : GoStr)
  | commandTerminated (stderr : GoStr)

/-- The code point of a single quote, used by the `'%s'` formats. -/
def singleQuote : Nat := 39

/-- `ErrorName()` of each failure type. -/
def errorName : TaskFailureError → GoStr
  | .unknown _ => strToGoStr "sfncli.Unknown"
  | .taskInputNotJSON _ => strToGoStr "sfncli.TaskInputNotJSON"
  | .taskInputMissingExecutionName _ => strToGoStr "sfncli.TaskInputMissingExecutionName"
  | .commandNotFound _ => strToGoStr "sfncli.CommandNotFound"
  | .commandKilled _ => strToGoStr "sfncli.CommandKilled"
  | .commandExitedNonzero _ => strToGoStr "sfncli.CommandExitedNonzero"
  | .custom c => c.err
  | .taskOutputNotJSON _ => strToGoStr "sfncli.TaskOutputNotJSON"
  | .commandTerminated _ => strToGoStr "sfncli.CommandTerminated"

/-- `ErrorCause()` of each failure type, with the `'%s'` formats spelled
out (code point 39 is the surrounding single quote). -/
def errorCause : TaskFailureError → GoStr
  | .unknown msg => msg
  | .taskInputNotJSON input =>
      strToGoStr "task input not valid JSON: " ++ [singleQuote] ++ input ++ [singleQuote]
  | .taskInputMissingExecutionName input =>
      strToGoStr "task input missing _EXECUTION_NAME attribute: " ++
        [singleQuote] ++ input ++ [singleQuote]
  | .commandNotFound path =>
      strToGoStr "command not found: " ++ [singleQuote] ++ path ++ [singleQuote]
  | .commandKilled stderr => stderr
  | .commandExitedNonzero stderr => stderr
  | .custom c => c.cause
  | .taskOutputNotJSON output =>
      strToGoStr "stdout not valid JSON: " ++ [singleQuote] ++ output ++ [singleQuote]
  | .commandTerminated stderr => stderr

/-! ### TaskRunner.Process as a trace of Step Functions calls -/

/-- A call on the Step Functions client.  The success payload is kept at
the decoded-map level: `json.Marshal` of a map produced by a successful
`Unmarshal` cannot fail, so serialization is not modelled. -/
inductive SFNCall where
  | sendTaskFailure (taskToken errName cause : GoStr)
  | sendTaskSuccess (taskToken : GoStr) (output : List (GoStr × GoJson))

/-- `TaskRunner.sendTaskFailure` (error_names.go): exactly one
`SendTaskFailure` call carrying the runner's token, the failure name and
the cause; a failed send is logged, never retried or rerouted. -/
def sendTaskFailureCalls (taskToken : GoStr) (e : TaskFailureError) : List SFNCall :=
  [.sendTaskFailure taskToken (errorName e) (errorCause e)]

/-- `syscall.WaitStatus` as `Process` inspects it. -/
inductive WaitStatus where
  | exited (code : Nat)
  | signaled (sig : Nat)
  | otherStatus

/-- The error of `execCmd.Run()`, by dynamic type. -/
inductive RunError where
  | pathError (path : GoStr)
  | exitError (status : WaitStatus)
  | otherError

def sigKILL : Nat := 9

def sigTERM : Nat := 15

def execNameKey : GoStr := strToGoStr "_EXECUTION_NAME"

/-- The external world one `TaskRunner.Process` call observes:
the `encoding/json` syntax oracle, the raw task input, the configured
work directory and the `ioutil.TempDir` outcome (consulted only when a
work directory is set), the `execCmd.Run()` outcome (`none` = exit
status 0, with `runErrorText` the `err.Error()` text used by
`TaskFailureUnknown`), the captured stdout/stderr, and the value of
`receivedSigterm` when `Run` returns. -/
structure ProcessEnv where
  parse : GoStr → Option GoJson
  input : GoStr
  workDirectory : GoStr
  tmpDirResult : Except GoStr GoStr
  runError : Option RunError
  runErrorText : GoStr
  stdout : GoStr
  stderr : GoStr
  receivedSigterm : Bool

/-- What one `Process` call did: the SFN calls it made, whether control
reached `execCmd.Run`, and whether the Go runtime panicked (the only
panic site is the assignment into a nil output map). -/
structure ProcessResult where
  calls : List SFNCall
  childStarted : Bool
  panicked : Bool

/-- `Process` from `execCmd.Run()` onwards (runner.go).  On a run error:
graceful-stop observed ⇒ custom failure if the last stdout line carries
one, else `CommandTerminated`; otherwise dispatch on the error's type —
`*os.PathError` ⇒ `CommandNotFound`; `*exec.ExitError` ⇒ custom failure
if present, else `CommandExitedNonzero` / `CommandKilled` by wait status;
anything left ⇒ `Unknown`.  On success: empty extracted line ⇒ output
`{}`; non-object line ⇒ `TaskOutputNotJSON`; a line parsing to JSON
`null` leaves the output map nil and the subsequent `_EXECUTION_NAME`
assignment panics; else inject `_EXECUTION_NAME` and send success. -/
def runnerProcessRun (taskToken : GoStr) (env : ProcessEnv) (executionName : GoStr) :
    ProcessResult :=
  match env.runError with
  | some runErr =>
    -- source locals: stderr := trimSpace(stderrbuf), customError :=
    -- parseCustomErrorFromStdout(stdoutbuf); both are inlined here.
    if env.receivedSigterm then
      if !(parseCustomErrorFromStdout env.parse env.stdout).err.isEmpty then
        ⟨sendTaskFailureCalls taskToken
          (.custom (parseCustomErrorFromStdout env.parse env.stdout)), true, false⟩
      else
        ⟨sendTaskFailureCalls taskToken
          (.commandTerminated (trimSpace env.stderr)), true, false⟩
    else
      match runErr with
      | .pathError p => ⟨sendTaskFailureCalls taskToken (.commandNotFound p), true, false⟩
      | .exitError status =>
        if !(parseCustomErrorFromStdout env.parse env.stdout).err.isEmpty then
          ⟨sendTaskFailureCalls taskToken
            (.custom (parseCustomErrorFromStdout env.parse env.stdout)), true, false⟩
        else
          match status with
          | .exited code =>
            if 0 < code then
              ⟨sendTaskFailureCalls taskToken
                (.commandExitedNonzero (trimSpace env.stderr)), true, false⟩
            else ⟨sendTaskFailureCalls taskToken (.unknown env.runErrorText), true, false⟩
          | .signaled sig =>
            if sig = sigKILL then
              ⟨sendTaskFailureCalls taskToken
                (.commandKilled (trimSpace env.stderr)), true, false⟩
            else ⟨sendTaskFailureCalls taskToken (.unknown env.runErrorText), true, false⟩
          | .otherStatus => ⟨sendTaskFailureCalls taskToken (.unknown env.runErrorText), true, false⟩
      | .otherError => ⟨sendTaskFailureCalls taskToken (.unknown env.runErrorText), true, false⟩
  | none =>
    -- source local: taskOutput := taskOutputFromStdout(stdoutbuf), inlined.
    if (taskOutputFromStdout env.stdout).isEmpty then
      ⟨[.sendTaskSuccess taskToken (mapSet [] execNameKey (.str executionName))], true, false⟩
    else
      match unmarshalMap (env.parse (taskOutputFromStdout env.stdout)) with
      | .jsonErr =>
        ⟨sendTaskFailureCalls taskToken
          (.taskOutputNotJSON (taskOutputFromStdout env.stdout)), true, false⟩
      | .nilMap => ⟨[], true, true⟩
      | .objMap fs =>
        ⟨[.sendTaskSuccess taskToken (mapSet fs execNameKey (.str executionName))], true, false⟩

/-- `Process` after the input was decoded into `taskInput` (a nil map
reads as the empty map): assert `_EXECUTION_NAME`, create the per-task
temp directory when a work directory is configured (its failure is a
`TaskFailureUnknown` before the child starts), then run.  The two
`json.Marshal` "should never happen" guards are omitted: marshalling a
map obtained from a successful `Unmarshal` is total. -/
def runnerProcessWithInput (taskToken : GoStr) (env : ProcessEnv)
    (taskInput : List (GoStr × GoJson)) : ProcessResult :=
  match mapGetString taskInput execNameKey with
  | none =>
    ⟨sendTaskFailureCalls taskToken (.taskInputMissingExecutionName env.input), false, false⟩
  | some executionName =>
    match env.workDirectory with
    | [] => runnerProcessRun taskToken env executionName
    | _ :: _ =>
      match env.tmpDirResult with
      | .error msg =>
        ⟨sendTaskFailureCalls taskToken
          (.unknown (strToGoStr "failed to create tmp dir: " ++ msg)), false, false⟩
      | .ok _ => runnerProcessRun taskToken env executionName

/-- `TaskRunner.Process` (runner.go, current revision), for a runner with
a non-nil `sfnapi` (with a nil one the code would panic calling a method
on a nil interface inside `sendTaskFailure`). -/
def runnerProcess (taskToken : GoStr) (env : ProcessEnv) : ProcessResult :=
  match unmarshalMap (env.parse env.input) with
  | .jsonErr => ⟨sendTaskFailureCalls taskToken (.taskInputNotJSON env.input), false, false⟩
  | .nilMap => runnerProcessWithInput taskToken env []
  | .objMap fs => runnerProcessWithInput taskToken env fs

/-- Replace only the captured stdout of an environment. -/
def withStdout (env : ProcessEnv) (s : GoStr) : ProcessEnv :=
  ⟨env.parse, env.input, env.workDirectory, env.tmpDirResult, env.runError,
   env.runErrorText, s, env.stderr, env.receivedSigterm⟩

/-! ### The signal bridge -/

/-- Grace period used when the task context is cancelled under a still
running child (5 seconds, runner.go `handleSignals`). -/
def ctxCancelGracePeriodSec : Nat := 5

/-- Default `sigtermGracePeriod` (25 seconds, `NewTaskRunner`). -/
def sigtermGracePeriodDefaultSec : Nat := 25

/-- An action of the signal bridge towards the child. -/
inductive BridgeAction where
  | signalChild (sig : Nat)
  | sleepSec (seconds : Nat)
deriving DecidableEq

/-- `sigTermAndThenKill` (runner.go): the docker-stop shutdown — SIGTERM,
a grace period, then SIGKILL. -/
def sigTermAndThenKill (gracePeriodSec : Nat) : List BridgeAction :=
  [.signalChild sigTERM, .sleepSec gracePeriodSec, .signalChild sigKILL]

/-- One wake-up of the `handleSignals` select loop: the task context
finished (recording whether `execCmd.Process` was non-nil and whether
`execCmd.ProcessState` showed the child already exited), or an OS signal
arrived on the `signal.Notify` channel. -/
inductive BridgeEvent where
  | ctxDone (processStarted processExited : Bool)
  | osSignal (processStarted : Bool) (sig : Nat)
deriving DecidableEq

/-- `TaskRunner.handleSignals` (runner.go): the actions performed over a
sequence of wake-ups.  Context end with a live child runs the abbreviated
shutdown and returns; a SIGTERM sets `receivedSigterm`, runs the full
shutdown and returns; any other signal with a started child is forwarded
unmodified.  The trailing `receivedSigterm` loop check is unreachable:
the only write of the flag is immediately followed by `return`. -/
def handleSignals (sigtermGracePeriodSec : Nat) : List BridgeEvent → List BridgeAction
  | [] => []
  | .ctxDone started exited :: _ =>
    if started && !exited then sigTermAndThenKill ctxCancelGracePeriodSec else []
  | .osSignal started sig :: rest =>
    if !started then handleSignals sigtermGracePeriodSec rest
    else if sig = sigTERM then sigTermAndThenKill sigtermGracePeriodSec
    else .signalChild sig :: handleSignals sigtermGracePeriodSec rest

/-! ### The heartbeat -/

/-- The error shapes `sendTaskHeartbeat` distinguishes on the response of
`SendTaskHeartbeatWithContext` (an AWS coded error, `context.Canceled`,
or any other error). -/
inductive SFNClientError where
  | awsError (code : GoStr)
  | contextCanceled
  | plainError (msg : GoStr)
deriving DecidableEq

/-- `awsErr(err, codes...)` (sfncli.go): `err` is an `awserr.Error` whose
code is among `codes`. -/
def awsErr : Option SFNClientError → List GoStr → Bool
  | some (.awsError c), codes => codes.contains c
  | _, _ => false

def errCodeInvalidToken : GoStr := strToGoStr "InvalidToken"

def errCodeTaskDoesNotExist : GoStr := strToGoStr "TaskDoesNotExist"

def errCodeTaskTimedOut : GoStr := strToGoStr "TaskTimedOut"

def requestCanceledErrorCode : GoStr := strToGoStr "RequestCanceled"

/-- `sendTaskHeartbeat` (sfncli.go): the outcome of one heartbeat given
the client call's response error (`none` = success).  The token-ownership
errors are returned (fatal); a cancelled context returns nil; everything
else is logged and nil is returned. -/
def sendTaskHeartbeat (resp : Option SFNClientError) : Option SFNClientError :=
  match resp with
  | none => none
  | some e =>
    if awsErr (some e) [errCodeInvalidToken, errCodeTaskDoesNotExist, errCodeTaskTimedOut] then
      some e
    else if e = .contextCanceled || awsErr (some e) [requestCanceledErrorCode] then
      none
    else
      none

/-- `taskHeartbeatLoop` (sfncli.go): one heartbeat immediately, then one
per tick until the context ends; `responses` are the successive call
outcomes.  The loop exits with the first fatal error, else with nil. -/
def taskHeartbeatLoop : List (Option SFNClientError) → Option SFNClientError
  | [] => none
  | r :: rest =>
    match sendTaskHeartbeat r with
    | some e => some e
    | none => taskHeartbeatLoop rest

/-! ### Concrete instances used by witnesses and counterexamples -/

def tokenLit : GoStr := strToGoStr "token"

/-- The raw text of a valid-JSON task input with `_EXECUTION_NAME: "e"`
(code points 123/125 are braces, 34 a double quote, 58 a colon, 101 `e`). -/
def inputRawExec : GoStr :=
  [123, 34] ++ strToGoStr "_EXECUTION_NAME" ++ [34, 58, 34, 101, 34, 125]

def execObj : GoJson := .obj [(execNameKey, .str (strToGoStr "e"))]

/-- A parsed custom-error object `error: "custom.x", cause: "c"`. -/
def customObj : GoJson :=
  .obj [(strToGoStr "error", .str (strToGoStr "custom.x")),
        (strToGoStr "cause", .str (strToGoStr "c"))]

/-- A concrete `encoding/json` syntax oracle: `inputRawExec` parses to
`execObj`, the text `null` to JSON `null`, the text `out` to `customObj`,
everything else is a syntax error. -/
def parseOracle : GoStr → Option GoJson := fun s =>
  if s == inputRawExec then some execObj
  else if s == strToGoStr "null" then some GoJson.null
  else if s == strToGoStr "out" then some customObj
  else none

/-- Valid input, child succeeded, but the last stdout line is `null`. -/
def envNullStdout : ProcessEnv :=
  ⟨parseOracle, inputRawExec, [], .ok [], none, [], strToGoStr "null", [], false⟩

/-- Valid input, child killed by SIGKILL with a custom error line. -/
def envKilledCustom : ProcessEnv :=
  ⟨parseOracle, inputRawExec, [], .ok [],
   some (.exitError (.signaled sigKILL)), [], strToGoStr "out", [], false⟩

/-- Valid input, graceful stop observed (`receivedSigterm`), the child
exited with an error and a custom error line — the branch that would
otherwise report `CommandTerminated`. -/
def envTerminatedCustom : ProcessEnv :=
  ⟨parseOracle, inputRawExec, [], .ok [],
   some .otherError, [], strToGoStr "out", [], true⟩

/-- The raw task input is the literal `null`. -/
def envNullInput : ProcessEnv :=
  ⟨parseOracle, strToGoStr "null", [], .ok [], none, [], [], [], false⟩

/-- Valid input, child succeeded with empty stdout. -/
def envEmptyStdout : ProcessEnv :=
  ⟨parseOracle, inputRawExec, [], .ok [], none, [], [], [], false⟩

/-- The raw task input is the text `bad`, a JSON syntax error. -/
def envBadInput : ProcessEnv :=
  ⟨parseOracle, strToGoStr "bad", [], .ok [], none, [], [], [], false⟩

/-! ## Lemmas: UTF-8 machinery -/

set_option maxHeartbeats 1600000 in
theorem utf8SeqLen_take_append {l : Bytes} {w : Nat} (h : utf8SeqLen l = some w)
    (X : Bytes) : utf8SeqLen (l.take w ++ X) = some w := by
  match l with
  | [] => simp [utf8SeqLen] at h
  | b0 :: rest =>
    simp only [utf8SeqLen] at h
    repeat' split at h
    all_goals
      first
      | exact Option.noConfusion h
      | (injection h with heq; subst heq;
         simp_all [utf8SeqLen, List.take];
         try ((repeat' split) <;> first | rfl | omega))

theorem toValidUTF8_nil : toValidUTF8 [] = [] := by
  rw [toValidUTF8.eq_def]
  split
  · next h => simp [utf8SeqLen] at h
  · rfl

theorem toValidUTF8_pos {l : Bytes} {w : Nat} (h : utf8SeqLen l = some w) :
    toValidUTF8 l = l.take w ++ toValidUTF8 (l.drop w) := by
  rw [toValidUTF8.eq_def]
  split
  · next w' h' => rw [h] at h'; cases h'; rfl
  · next h' => rw [h] at h'; cases h'

theorem toValidUTF8_neg {b : Nat} {rest : Bytes} (h : utf8SeqLen (b :: rest) = none) :
    toValidUTF8 (b :: rest) = toValidUTF8 rest := by
  rw [toValidUTF8.eq_def]
  split
  · next w' h' => rw [h] at h'; cases h'
  · rfl

theorem validUTF8_pos {l : Bytes} {w : Nat} (h : utf8SeqLen l = some w) :
    validUTF8 l = validUTF8 (l.drop w) := by
  rw [validUTF8.eq_def]
  split
  · next w' h' => rw [h] at h'; cases h'; rfl
  · next h' => rw [h] at h'; cases h'

theorem validUTF8_neg {l : Bytes} (h : utf8SeqLen l = none) :
    validUTF8 l = l.isEmpty := by
  rw [validUTF8.eq_def]
  split
  · next w' h' => rw [h] at h'; cases h'
  · rfl

theorem toValidUTF8_length_le (l : Bytes) : (toValidUTF8 l).length ≤ l.length := by
  induction l using toValidUTF8.induct with
  | case1 l w h ih =>
    rw [toValidUTF8_pos h]
    have hb := utf8SeqLen_bounds h
    simp only [List.length_append, List.length_take, List.length_drop] at *
    omega
  | case2 => simp [toValidUTF8_nil]
  | case3 b rest h _ ih =>
    rw [toValidUTF8_neg h]
    simp only [List.length_cons]
    omega

theorem validUTF8_nil_eq : validUTF8 [] = true := by
  rw [validUTF8_neg (by decide)]
  rfl

theorem validUTF8_toValidUTF8 (l : Bytes) : validUTF8 (toValidUTF8 l) = true := by
  induction l using toValidUTF8.induct with
  | case1 l w h ih =>
    rw [toValidUTF8_pos h]
    have hb := utf8SeqLen_bounds h
    rw [validUTF8_pos (utf8SeqLen_take_append h (toValidUTF8 (l.drop w)))]
    rw [List.drop_left' (by simp; omega)]
    exact ih
  | case2 => rw [toValidUTF8_nil]; exact validUTF8_nil_eq
  | case3 b rest h _ ih => rw [toValidUTF8_neg h]; exact ih

theorem toValidUTF8_of_valid {l : Bytes} (h : validUTF8 l = true) : toValidUTF8 l = l := by
  induction l using toValidUTF8.induct with
  | case1 l w hw ih =>
    rw [toValidUTF8_pos hw]
    rw [validUTF8_pos hw] at h
    rw [ih h, List.take_append_drop]
  | case2 => exact toValidUTF8_nil
  | case3 b rest hn _ _ =>
    rw [validUTF8_neg hn] at h
    simp at h

theorem validUTF8_append {a b : Bytes} (ha : validUTF8 a = true)
    (hb : validUTF8 b = true) : validUTF8 (a ++ b) = true := by
  induction a using validUTF8.induct with
  | case1 a w h ih =>
    have hab : utf8SeqLen (a ++ b) = some w := by
      have := utf8SeqLen_take_append h (a.drop w ++ b)
      rwa [← List.append_assoc, List.take_append_drop] at this
    rw [validUTF8_pos hab]
    have hwle := (utf8SeqLen_bounds h).2
    rw [List.drop_append_eq_append_drop]
    have : w - a.length = 0 := by omega
    rw [this, List.drop_zero]
    rw [validUTF8_pos h] at ha
    exact ih ha
  | case2 a h =>
    rw [validUTF8_neg h] at ha
    have : a = [] := by
      cases a with
      | nil => rfl
      | cons x xs => simp at ha
    subst this
    simpa using hb

theorem validUTF8_ascii {l : Bytes} (h : ∀ b ∈ l, b < 128) : validUTF8 l = true := by
  induction l with
  | nil => exact validUTF8_nil_eq
  | cons b rest ih =>
    have hb : b < 128 := h b (by simp)
    have h1 : utf8SeqLen (b :: rest) = some 1 := by simp [utf8SeqLen, hb]
    rw [validUTF8_pos h1]
    simpa using ih (fun x hx => h x (by simp [hx]))

/-! ## Claim C6 -/

/-- C6, as stated, is false: the claim quantifies over *every* string,
limit and marker, but (a) a string that already fits in the limit is
returned unchanged even when it is invalid UTF-8 (here the lone byte
`0xFF`), and (b) for a limit smaller than the marker the Go code panics
with a slice bound of `maxLength - len(suffix) < 0` (modelled as `none`),
so nothing valid is returned either. -/
theorem truncateString_not_always_valid_utf8 :
    truncateString [255] 1 truncationMarker = some [255] ∧
    validUTF8 [255] = false ∧
    truncateString [97, 98] 1 truncationMarker = none := by
  refine ⟨?_, ?_, ?_⟩
  · simp [truncateString]
  · rw [validUTF8_neg (by decide)]; rfl
  · simp [truncateString, truncationMarker, strToGoStr]

/-- C6 (amended): for a valid-UTF-8 input, a valid-UTF-8 marker, and a
limit of at least the marker's byte length, `truncateString` returns
(without panicking) a valid-UTF-8 string of byte length at most the
limit, and when the input exceeded the limit the result ends with the
marker; any multi-byte sequence cut at the truncation point was trimmed
back by `ToValidUTF8` before the marker was appended. -/
theorem truncateString_valid_bounded (s : Bytes) (maxLength : Nat) (suffix : Bytes)
    (hs : validUTF8 s = true) (hsuf : validUTF8 suffix = true)
    (hlen : suffix.length ≤ maxLength) :
    ∃ r, truncateString s maxLength suffix = some r ∧ validUTF8 r = true ∧
      r.length ≤ maxLength ∧ (maxLength < s.length → suffix.IsSuffix r) := by
  unfold truncateString
  by_cases hle : s.length ≤ maxLength
  · exact ⟨s, by simp [hle], hs, hle, fun hgt => absurd hle (by omega)⟩
  · refine ⟨toValidUTF8 (s.take (maxLength - suffix.length)) ++ suffix,
      by simp [hle, hlen], ?_, ?_, fun _ => ⟨_, rfl⟩⟩
    · exact validUTF8_append (validUTF8_toValidUTF8 _) hsuf
    · have h1 := toValidUTF8_length_le (s.take (maxLength - suffix.length))
      have h2 : (s.take (maxLength - suffix.length)).length ≤ maxLength - suffix.length := by
        simp
      simp only [List.length_append]
      omega

/-- Witness for `truncateString_valid_bounded` at a concrete input. -/
theorem truncateString_valid_bounded_witness :
    validUTF8 [97, 98] = true ∧
    ∃ r, truncateString [97, 98] 11 truncationMarker = some r ∧ validUTF8 r = true ∧
      r.length ≤ 11 ∧ (11 < ([97, 98] : Bytes).length → truncationMarker.IsSuffix r) :=
  ⟨validUTF8_ascii (by decide),
   truncateString_valid_bounded [97, 98] 11 truncationMarker (validUTF8_ascii (by decide))
     (validUTF8_ascii (by decide)) (by decide)⟩

/-! ## Claim C10 -/

/-- C10: a string whose byte length is at most the limit is returned
unchanged — no marker, no UTF-8 repair — and, consequently, whatever
`truncateString` returns is a fixed point of a second application (its
result always fits in the limit). -/
theorem truncateString_identity_below_limit (s : Bytes) (maxLength : Nat) (suffix : Bytes) :
    (s.length ≤ maxLength → truncateString s maxLength suffix = some s) ∧
    (∀ t, truncateString s maxLength suffix = some t →
      truncateString t maxLength suffix = some t) := by
  constructor
  · intro h; simp [truncateString, h]
  · intro t ht
    by_cases h1 : s.length ≤ maxLength
    · simp [truncateString, h1] at ht
      subst ht
      simp [truncateString, h1]
    · by_cases h2 : suffix.length ≤ maxLength
      · simp [truncateString, h1, h2] at ht
        have hlen : t.length ≤ maxLength := by
          subst ht
          have := toValidUTF8_length_le (s.take (maxLength - suffix.length))
          simp only [List.length_append]
          have h3 : (s.take (maxLength - suffix.length)).length ≤ maxLength - suffix.length := by
            simp
          omega
        simp [truncateString, hlen]
      · simp [truncateString, h1, h2] at ht

/-- Witness for `truncateString_identity_below_limit` at a concrete input. -/
theorem truncateString_identity_below_limit_witness :
    truncateString [97] 2 [] = some [97] :=
  (truncateString_identity_below_limit [97] 2 []).1 (by decide)

/-! ## Lemmas: line splitting -/

theorem splitNL_ne_nil (t : GoStr) : splitNL t ≠ [] := by
  cases t with
  | nil => simp [splitNL]
  | cons c rest =>
    simp only [splitNL]
    split
    · simp
    · split <;> simp

theorem getLast?_cons_ne {α : Type} (a : α) (L : List α) (hL : L ≠ []) :
    (a :: L).getLast? = L.getLast? := by
  cases L with
  | nil => exact absurd rfl hL
  | cons b M => exact List.getLast?_cons_cons

theorem dropWhile_head?_not {p : Nat → Bool} :
    ∀ (l : GoStr) (x : Nat), (l.dropWhile p).head? = some x → p x = false := by
  intro l
  induction l with
  | nil => intro x h; simp [List.dropWhile] at h
  | cons c rest ih =>
    intro x h
    by_cases hc : p c
    · rw [List.dropWhile_cons_of_pos hc] at h
      exact ih x h
    · rw [List.dropWhile_cons_of_neg hc] at h
      simp at h
      subst h
      simpa using hc

theorem trimSpace_getLast?_not_space (s : GoStr) (x : Nat)
    (h : (trimSpace s).getLast? = some x) : goIsSpace x = false := by
  unfold trimSpace at h
  rw [List.getLast?_reverse] at h
  exact dropWhile_head?_not _ x h

theorem last_splitNL_ne_empty :
    ∀ (t : GoStr), t ≠ [] → t.getLast? ≠ some 10 →
      ∃ l, (splitNL t).getLast? = some l ∧ l ≠ [] := by
  intro t
  induction t with
  | nil => intro h; exact absurd rfl h
  | cons c rest ih =>
    intro _ h10
    cases rest with
    | nil =>
      have hc : c ≠ 10 := by
        intro hc
        exact h10 (by simp [hc])
      refine ⟨[c], ?_, by simp⟩
      simp [splitNL, hc]
    | cons d rest2 =>
      have h10' : (d :: rest2).getLast? ≠ some 10 := by
        rwa [List.getLast?_cons_cons] at h10
      obtain ⟨l, hl, hlne⟩ := ih (by simp) h10'
      by_cases hc : c = 10
      · subst hc
        have he : splitNL (10 :: d :: rest2) = [] :: splitNL (d :: rest2) := rfl
        refine ⟨l, ?_, hlne⟩
        rw [he, getLast?_cons_ne _ _ (splitNL_ne_nil _)]
        exact hl
      · have he : splitNL (c :: d :: rest2) =
            match splitNL (d :: rest2) with
            | [] => [[c]]
            | l :: ls => (c :: l) :: ls := by
          conv_lhs => rw [splitNL]
          rw [if_neg hc]
        cases hS : splitNL (d :: rest2) with
        | nil => exact absurd hS (splitNL_ne_nil _)
        | cons s0 srest =>
          rw [hS] at he
          cases srest with
          | nil =>
            rw [hS] at hl
            simp at hl
            refine ⟨c :: s0, ?_, by simp⟩
            rw [he]
            simp
          | cons s1 srest2 =>
            rw [hS] at hl
            rw [List.getLast?_cons_cons] at hl
            refine ⟨l, ?_, hlne⟩
            rw [he, List.getLast?_cons_cons]
            exact hl

theorem getLast?_concat_decomp {α : Type} :
    ∀ (L : List α) (x : α), L.getLast? = some x → ∃ M, L = M ++ [x] := by
  intro L
  induction L with
  | nil => intro x h; simp at h
  | cons a rest ih =>
    intro x h
    cases rest with
    | nil =>
      simp at h
      subst h
      exact ⟨[], rfl⟩
    | cons b rest2 =>
      rw [List.getLast?_cons_cons] at h
      obtain ⟨M, hM⟩ := ih x h
      exact ⟨a :: M, by rw [hM]; rfl⟩

theorem getLast?_filter_of_last {α : Type} (p : α → Bool) (L : List α) (x : α)
    (h : L.getLast? = some x) (hp : p x = true) :
    (L.filter p).getLast? = some x := by
  obtain ⟨M, hM⟩ := getLast?_concat_decomp L x h
  subst hM
  rw [List.filter_append]
  simp [hp]

/-! ## Claim C4 -/

/-- C4, as stated, is false on stdout `"a\nb "`: the code trims the
white space of the whole stdout before splitting, so it returns `"b"`,
while the last newline-delimited, non-empty line of that string is the
untrimmed `"b "`. -/
theorem taskOutputFromStdout_not_last_nonempty_line :
    taskOutputFromStdout (strToGoStr "a\nb ") = strToGoStr "b" ∧
    lastNonEmptyLine (strToGoStr "a\nb ") = strToGoStr "b " ∧
    taskOutputFromStdout (strToGoStr "a\nb ") ≠ lastNonEmptyLine (strToGoStr "a\nb ") := by
  refine ⟨by decide, by decide, by decide⟩

/-- C4 (amended): `taskOutputFromStdout` returns the last non-empty line
of the *whitespace-trimmed* stdout (`strings.TrimSpace` applied to the
whole capture); and when the extracted line is empty, the success report
of a cleanly exiting child carries exactly the `_EXECUTION_NAME` binding
— the empty JSON object before the injection. -/
theorem taskOutputFromStdout_trimmed_last_line :
    (∀ s, taskOutputFromStdout s = lastNonEmptyLine (trimSpace s)) ∧
    (∀ taskToken env fs en,
      unmarshalMap (env.parse env.input) = .objMap fs →
      mapGetString fs execNameKey = some en →
      env.workDirectory = [] →
      env.runError = none →
      taskOutputFromStdout env.stdout = [] →
      (runnerProcess taskToken env).calls =
        [.sendTaskSuccess taskToken [(execNameKey, .str en)]]) := by
  constructor
  · intro s
    unfold taskOutputFromStdout lastNonEmptyLine
    by_cases ht : trimSpace s = []
    · rw [ht]
      simp [splitNL]
    · have h10 : (trimSpace s).getLast? ≠ some 10 := by
        intro hc
        have := trimSpace_getLast?_not_space s 10 hc
        simp [goIsSpace] at this
      obtain ⟨l, hl, hlne⟩ := last_splitNL_ne_empty (trimSpace s) ht h10
      have hf := getLast?_filter_of_last (fun l => !l.isEmpty) (splitNL (trimSpace s)) l hl
        (by simpa using hlne)
      rw [hl, hf]
  · intro taskToken env fs en h1 h2 h3 h4 h5
    simp only [runnerProcess, runnerProcessWithInput, runnerProcessRun, h1, h2, h3, h4, h5,
      mapSet, List.isEmpty_nil, if_true, List.nil_append]

/-- Witness for `taskOutputFromStdout_trimmed_last_line` at a concrete
environment: valid input, clean exit, empty stdout. -/
theorem taskOutputFromStdout_trimmed_last_line_witness :
    (runnerProcess tokenLit envEmptyStdout).calls =
      [.sendTaskSuccess tokenLit [(execNameKey, .str (strToGoStr "e"))]] :=
  taskOutputFromStdout_trimmed_last_line.2 tokenLit envEmptyStdout
    [(execNameKey, .str (strToGoStr "e"))] (strToGoStr "e") rfl rfl rfl rfl rfl

/-! ## Claim C3 -/

theorem isEmpty_false_of_ne {α : Type} {l : List α} (h : l ≠ []) : l.isEmpty = false := by
  cases l with
  | nil => exact absurd rfl h
  | cons a t => rfl

/-- C3, as stated, is false on the input `null`: `json.Unmarshal` of the
literal `null` into a map succeeds (it stores the nil map), so `Process`
proceeds to the `_EXECUTION_NAME` assertion and reports
`sfncli.TaskInputMissingExecutionName`, not `sfncli.TaskInputNotJSON`. -/
theorem process_null_input_not_input_not_json :
    (runnerProcess tokenLit envNullInput).calls =
      [.sendTaskFailure tokenLit
        (errorName (.taskInputMissingExecutionName (strToGoStr "null")))
        (errorCause (.taskInputMissingExecutionName (strToGoStr "null")))] ∧
    errorName (.taskInputMissingExecutionName (strToGoStr "null")) ≠
      errorName (.taskInputNotJSON (strToGoStr "null")) ∧
    (runnerProcess tokenLit envNullInput).childStarted = false :=
  ⟨rfl, by decide, rfl⟩

/-- C3 (amended): for every input that parses neither as a JSON object
nor as the literal `null`, `Process` emits exactly one failure named
`sfncli.TaskInputNotJSON` whose cause embeds the raw input string, and
the child process is never started; the input `null` instead decodes
into a nil map without error and is reported as
`sfncli.TaskInputMissingExecutionName` (again without starting the
child). -/
theorem process_input_not_json_failure :
    (∀ taskToken env,
      (∀ fs, env.parse env.input ≠ some (.obj fs)) →
      env.parse env.input ≠ some .null →
      (runnerProcess taskToken env).calls =
        [.sendTaskFailure taskToken (strToGoStr "sfncli.TaskInputNotJSON")
          (strToGoStr "task input not valid JSON: " ++
            [singleQuote] ++ env.input ++ [singleQuote])] ∧
      (runnerProcess taskToken env).childStarted = false) ∧
    (∀ taskToken env,
      env.parse env.input = some .null →
      (runnerProcess taskToken env).calls =
        [.sendTaskFailure taskToken (strToGoStr "sfncli.TaskInputMissingExecutionName")
          (strToGoStr "task input missing _EXECUTION_NAME attribute: " ++
            [singleQuote] ++ env.input ++ [singleQuote])] ∧
      (runnerProcess taskToken env).childStarted = false) := by
  constructor
  · intro taskToken env hobj hnull
    have hu : unmarshalMap (env.parse env.input) = .jsonErr := by
      cases hp : env.parse env.input with
      | none => rfl
      | some j =>
        cases j with
        | null => exact absurd hp hnull
        | obj fs => exact absurd hp (hobj fs)
        | bool b => rfl
        | num lit => rfl
        | str s => rfl
        | arr elems => rfl
    simp [runnerProcess, hu, sendTaskFailureCalls, errorName, errorCause]
  · intro taskToken env hnull
    have hm : mapGetString ([] : List (GoStr × GoJson)) execNameKey = none := rfl
    simp [runnerProcess, hnull, unmarshalMap, runnerProcessWithInput, hm,
      sendTaskFailureCalls, errorName, errorCause]

/-- Witness for `process_input_not_json_failure`: the oracle rejects the
input text `bad` as JSON. -/
theorem process_input_not_json_failure_witness :
    (runnerProcess tokenLit envBadInput).calls =
      [.sendTaskFailure tokenLit (strToGoStr "sfncli.TaskInputNotJSON")
        (strToGoStr "task input not valid JSON: " ++
          [singleQuote] ++ strToGoStr "bad" ++ [singleQuote])] ∧
    (runnerProcess tokenLit envBadInput).childStarted = false :=
  process_input_not_json_failure.1 tokenLit envBadInput
    (fun fs h => Option.noConfusion h) (fun h => Option.noConfusion h)

/-! ## Claim C1 -/

/-- C1 (code bug): the claim — exactly one terminal report per acquired
work item, on every control-flow path — states the code's evident intent,
but the code breaks it on one path.  When the child exits cleanly and its
last stdout line is the literal `null`, `json.Unmarshal` leaves the
output map nil without error and the following
`taskOutputMap["_EXECUTION_NAME"] = executionName` assignment panics
(assignment to an entry of a nil map), so the worker crashes with *zero*
terminal reports for the acquired work item.  Every other path emits
exactly one report carrying the runner's token (see the C5 analysis for
the success call; every failure branch goes through
`sendTaskFailureCalls`). -/
theorem process_null_stdout_no_report :
    (runnerProcess tokenLit envNullStdout).calls = [] ∧
    (runnerProcess tokenLit envNullStdout).panicked = true ∧
    (runnerProcess tokenLit envNullStdout).childStarted = true :=
  ⟨rfl, rfl, rfl⟩

/-! ## Claim C2 -/

/-- C2, as stated, is false: the custom-failure check of the
`*exec.ExitError` arm runs *before* the wait-status switch, so a child
killed by SIGKILL (no graceful stop observed) whose last stdout line is a
custom error object is reported under the custom name, not
`sfncli.CommandKilled`. -/
theorem process_custom_masks_command_killed :
    (runnerProcess tokenLit envKilledCustom).calls =
      [.sendTaskFailure tokenLit (strToGoStr "custom.x") (strToGoStr "c")] ∧
    strToGoStr "custom.x" ≠ strToGoStr "sfncli.CommandKilled" :=
  ⟨rfl, by decide⟩

/-- C2 (amended): a custom failure parsed from the last stdout line
overrides the CommandExitedNonzero, CommandTerminated and also the
CommandKilled classification: it wins in the whole `*exec.ExitError` arm
(the custom check precedes the wait-status switch, so SIGKILL included)
and in the graceful-stop branch (where `CommandTerminated` arises, for
any run error); it never overrides CommandNotFound (and the
input-validation failures happen before the child runs at all). -/
theorem custom_error_overrides_exit_classes :
    (∀ taskToken env executionName st,
      env.runError = some (.exitError st) →
      env.receivedSigterm = false →
      (parseCustomErrorFromStdout env.parse env.stdout).err ≠ [] →
      (runnerProcessRun taskToken env executionName).calls =
        [.sendTaskFailure taskToken
          (parseCustomErrorFromStdout env.parse env.stdout).err
          (parseCustomErrorFromStdout env.parse env.stdout).cause]) ∧
    (∀ taskToken env executionName runErr,
      env.runError = some runErr →
      env.receivedSigterm = true →
      (parseCustomErrorFromStdout env.parse env.stdout).err ≠ [] →
      (runnerProcessRun taskToken env executionName).calls =
        [.sendTaskFailure taskToken
          (parseCustomErrorFromStdout env.parse env.stdout).err
          (parseCustomErrorFromStdout env.parse env.stdout).cause]) ∧
    (∀ taskToken env executionName p,
      env.runError = some (.pathError p) →
      env.receivedSigterm = false →
      (runnerProcessRun taskToken env executionName).calls =
        [.sendTaskFailure taskToken (strToGoStr "sfncli.CommandNotFound")
          (errorCause (.commandNotFound p))]) := by
  refine ⟨?_, ?_, ?_⟩
  · intro taskToken env executionName st h1 h2 h3
    have hE := isEmpty_false_of_ne h3
    simp only [runnerProcessRun, h1, h2, hE, Bool.not_false, if_true, Bool.false_eq_true,
      if_false, sendTaskFailureCalls, errorName, errorCause]
  · intro taskToken env executionName runErr h1 h2 h3
    have hE := isEmpty_false_of_ne h3
    simp only [runnerProcessRun, h1, h2, hE, Bool.not_false, if_true,
      sendTaskFailureCalls, errorName, errorCause]
  · intro taskToken env executionName p h1 h2
    simp only [runnerProcessRun, h1, h2, Bool.false_eq_true, if_false,
      sendTaskFailureCalls, errorName, errorCause]

/-- Witness for `custom_error_overrides_exit_classes`: the SIGKILL-plus-
custom-error environment (exit arm) and the graceful-stop-plus-custom-
error environment (CommandTerminated arm). -/
theorem custom_error_overrides_exit_classes_witness :
    ((runnerProcessRun tokenLit envKilledCustom (strToGoStr "e")).calls =
      [.sendTaskFailure tokenLit
        (parseCustomErrorFromStdout envKilledCustom.parse envKilledCustom.stdout).err
        (parseCustomErrorFromStdout envKilledCustom.parse envKilledCustom.stdout).cause]) ∧
    ((runnerProcessRun tokenLit envTerminatedCustom (strToGoStr "e")).calls =
      [.sendTaskFailure tokenLit
        (parseCustomErrorFromStdout envTerminatedCustom.parse
          envTerminatedCustom.stdout).err
        (parseCustomErrorFromStdout envTerminatedCustom.parse
          envTerminatedCustom.stdout).cause]) :=
  ⟨custom_error_overrides_exit_classes.1 tokenLit envKilledCustom (strToGoStr "e")
    (.signaled sigKILL) rfl rfl (by decide),
   custom_error_overrides_exit_classes.2.1 tokenLit envTerminatedCustom (strToGoStr "e")
    .otherError rfl rfl (by decide)⟩

/-! ## Claim C5 -/

theorem mapGet_mapSet (fields : List (GoStr × GoJson)) (k : GoStr) (v : GoJson) :
    mapGet (mapSet fields k v) k = some v := by
  simp [mapGet, mapSet, List.find?]

theorem runnerProcessRun_success_shape {taskToken : GoStr} {env : ProcessEnv}
    {executionName tok2 : GoStr} {out : List (GoStr × GoJson)}
    (hmem : SFNCall.sendTaskSuccess tok2 out ∈
      (runnerProcessRun taskToken env executionName).calls) :
    tok2 = taskToken ∧ ∃ fs0, out = mapSet fs0 execNameKey (.str executionName) := by
  unfold runnerProcessRun at hmem
  repeat' split at hmem
  all_goals simp [sendTaskFailureCalls] at hmem
  all_goals exact ⟨hmem.1, ⟨_, hmem.2⟩⟩

/-- C5: every `SendTaskSuccess` call of a `Process` invocation carries
the runner's own token, and its payload map binds `_EXECUTION_NAME` to
exactly the string that the task input supplied — the injected binding
overwrites (by `mapGet`) anything the child emitted under that key. -/
theorem process_success_payload_execution_name (taskToken : GoStr) (env : ProcessEnv)
    (tok2 : GoStr) (out : List (GoStr × GoJson))
    (hmem : SFNCall.sendTaskSuccess tok2 out ∈ (runnerProcess taskToken env).calls) :
    tok2 = taskToken ∧
    ∃ fs en, unmarshalMap (env.parse env.input) = .objMap fs ∧
      mapGetString fs execNameKey = some en ∧
      mapGet out execNameKey = some (.str en) := by
  unfold runnerProcess at hmem
  cases hu : unmarshalMap (env.parse env.input) with
  | jsonErr =>
    simp only [hu] at hmem
    simp [sendTaskFailureCalls] at hmem
  | nilMap =>
    simp only [hu] at hmem
    have hm : mapGetString ([] : List (GoStr × GoJson)) execNameKey = none := rfl
    simp only [runnerProcessWithInput, hm] at hmem
    simp [sendTaskFailureCalls] at hmem
  | objMap fs =>
    simp only [hu] at hmem
    unfold runnerProcessWithInput at hmem
    cases he : mapGetString fs execNameKey with
    | none =>
      simp only [he] at hmem
      simp [sendTaskFailureCalls] at hmem
    | some en =>
      simp only [he] at hmem
      have hrun : SFNCall.sendTaskSuccess tok2 out ∈
          (runnerProcessRun taskToken env en).calls := by
        cases hw : env.workDirectory with
        | nil => simpa only [hw] using hmem
        | cons a t =>
          simp only [hw] at hmem
          cases ht : env.tmpDirResult with
          | error m =>
            simp only [ht] at hmem
            simp [sendTaskFailureCalls] at hmem
          | ok d => simpa only [ht] using hmem
      obtain ⟨h1, fs0, h2⟩ := runnerProcessRun_success_shape hrun
      subst h2
      exact ⟨h1, fs, en, rfl, he, mapGet_mapSet _ _ _⟩

/-- Witness for `process_success_payload_execution_name` at the concrete
clean-exit environment. -/
theorem process_success_payload_execution_name_witness :
    tokenLit = tokenLit ∧
    ∃ fs en, unmarshalMap (envEmptyStdout.parse envEmptyStdout.input) = .objMap fs ∧
      mapGetString fs execNameKey = some en ∧
      mapGet [(execNameKey, GoJson.str (strToGoStr "e"))] execNameKey = some (.str en) :=
  process_success_payload_execution_name tokenLit envEmptyStdout tokenLit
    [(execNameKey, GoJson.str (strToGoStr "e"))] (List.mem_singleton.mpr rfl)

/-! ## Claim C9 -/

/-- C9: `parseCustomErrorFromStdout` unmarshals exactly
`taskOutputFromStdout stdout`; consequently the whole of `Process` is
invariant under replacing the captured stdout by any other capture with
the same extracted last line — a JSON object with an `error` field on an
earlier stdout line can never change the outcome, in particular it is
never reported as a custom failure. -/
theorem custom_error_from_last_line_only :
    (∀ parse stdout, parseCustomErrorFromStdout parse stdout =
      unmarshalCustom (parse (taskOutputFromStdout stdout))) ∧
    (∀ taskToken env s2,
      taskOutputFromStdout s2 = taskOutputFromStdout env.stdout →
      runnerProcess taskToken (withStdout env s2) = runnerProcess taskToken env) := by
  constructor
  · intro parse stdout
    rfl
  · intro taskToken env s2 h
    simp only [runnerProcess, runnerProcessWithInput, runnerProcessRun,
      parseCustomErrorFromStdout, withStdout, h]

/-- Witness for `custom_error_from_last_line_only`: prepending a junk
line above the same last line changes nothing. -/
theorem custom_error_from_last_line_only_witness :
    runnerProcess tokenLit (withStdout envKilledCustom (strToGoStr "junk\nout")) =
      runnerProcess tokenLit envKilledCustom :=
  custom_error_from_last_line_only.2 tokenLit envKilledCustom (strToGoStr "junk\nout")
    (by decide)

/-! ## Claim C7 -/

/-- C7: one heartbeat returns a fatal (non-nil) error exactly when the
response is an AWS error coded `InvalidToken`, `TaskDoesNotExist` or
`TaskTimedOut`; a cancelled context yields nil; and the heartbeat loop
ends with an error exactly when some response in its run is fatal —
every other error is logged and the loop keeps going. -/
theorem heartbeat_fatal_iff :
    (∀ resp, (sendTaskHeartbeat resp).isSome = true ↔
      ∃ c, resp = some (.awsError c) ∧
        (c = errCodeInvalidToken ∨ c = errCodeTaskDoesNotExist ∨ c = errCodeTaskTimedOut)) ∧
    sendTaskHeartbeat (some .contextCanceled) = none ∧
    (∀ responses, (taskHeartbeatLoop responses).isSome = true ↔
      ∃ r ∈ responses, (sendTaskHeartbeat r).isSome = true) := by
  refine ⟨?_, rfl, ?_⟩
  · intro resp
    cases resp with
    | none => simp [sendTaskHeartbeat]
    | some e =>
      cases e with
      | awsError c =>
        simp only [sendTaskHeartbeat, awsErr]
        by_cases hc :
            ([errCodeInvalidToken, errCodeTaskDoesNotExist, errCodeTaskTimedOut].contains c)
              = true
        · simp only [hc, if_true, Option.isSome_some, true_iff]
          refine ⟨c, rfl, ?_⟩
          simpa [List.contains_eq_any_beq, beq_iff_eq] using hc
        · simp only [Bool.not_eq_true] at hc
          simp only [hc, Bool.false_eq_true, if_false]
          constructor
          · intro h
            split at h <;> simp at h
          · rintro ⟨c', hc', hdis⟩
            injection hc' with hc2
            injection hc2 with hc3
            subst hc3
            have : ([errCodeInvalidToken, errCodeTaskDoesNotExist,
                errCodeTaskTimedOut].contains c) = true := by
              simpa [List.contains_eq_any_beq, beq_iff_eq] using hdis
            rw [this] at hc
            cases hc
      | contextCanceled => simp [sendTaskHeartbeat, awsErr]
      | plainError msg => simp [sendTaskHeartbeat, awsErr, requestCanceledErrorCode]
  · intro responses
    induction responses with
    | nil => simp [taskHeartbeatLoop]
    | cons r rest ih =>
      simp only [taskHeartbeatLoop]
      cases hr : sendTaskHeartbeat r with
      | some e => simp [hr]
      | none => simp [hr, ih]

/-- Witness for `heartbeat_fatal_iff`: an `InvalidToken` response is
fatal. -/
theorem heartbeat_fatal_iff_witness :
    (sendTaskHeartbeat (some (.awsError errCodeInvalidToken))).isSome = true :=
  (heartbeat_fatal_iff.1 (some (.awsError errCodeInvalidToken))).mpr
    ⟨errCodeInvalidToken, rfl, Or.inl rfl⟩

/-! ## Claim C8 -/

theorem sigTermAndThenKill_decomp {g : Nat} {pre post : List BridgeAction}
    (h : sigTermAndThenKill g = pre ++ .signalChild sigKILL :: post) :
    pre = [.signalChild sigTERM, .sleepSec g] := by
  rcases pre with _ | ⟨x, _ | ⟨y, _ | ⟨z, rest⟩⟩⟩ <;>
    simp [sigTermAndThenKill, sigTERM, sigKILL] at h <;>
    simp_all [sigTERM, sigKILL]

/-- C8: over any sequence of bridge wake-ups in which the OS never
delivers SIGKILL to the worker itself (the runtime cannot catch it),
every SIGKILL the bridge sends to the child is immediately preceded by a
SIGTERM followed by a grace-period sleep — both for an external graceful
stop and for task-context cancellation under a live child; when the
child never started, nothing is sent at all. -/
theorem sigkill_preceded_by_sigterm_grace (grace : Nat) (events : List BridgeEvent)
    (hnk : ∀ started, BridgeEvent.osSignal started sigKILL ∉ events) :
    ∀ pre post, handleSignals grace events = pre ++ .signalChild sigKILL :: post →
      ∃ pre2 g, pre = pre2 ++ [.signalChild sigTERM, .sleepSec g] := by
  induction events with
  | nil =>
    intro pre post h
    simp [handleSignals] at h
  | cons e rest ih =>
    have hnk2 : ∀ started, BridgeEvent.osSignal started sigKILL ∉ rest :=
      fun st hm => hnk st (List.mem_cons_of_mem _ hm)
    cases e with
    | ctxDone started exited =>
      intro pre post h
      simp only [handleSignals] at h
      split at h
      · exact ⟨[], ctxCancelGracePeriodSec, by simp [sigTermAndThenKill_decomp h]⟩
      · simp at h
    | osSignal started sig =>
      intro pre post h
      simp only [handleSignals] at h
      cases started with
      | false =>
        simp only [Bool.not_false, if_true] at h
        exact ih hnk2 pre post h
      | true =>
        simp only [Bool.not_true, Bool.false_eq_true, if_false] at h
        by_cases hsig : sig = sigTERM
        · rw [if_pos hsig] at h
          exact ⟨[], grace, by simp [sigTermAndThenKill_decomp h]⟩
        · rw [if_neg hsig] at h
          cases pre with
          | nil =>
            simp only [List.nil_append, List.cons.injEq] at h
            have hk : sig = sigKILL := by
              have := h.1
              injection this
            exact absurd (hk ▸ List.Mem.head rest) (hnk true)
          | cons x pre1 =>
            simp only [List.cons_append, List.cons.injEq] at h
            obtain ⟨pre2, g, hp⟩ := ih hnk2 pre1 post h.2
            exact ⟨x :: pre2, g, by rw [hp]; rfl⟩

/-- Witness for `sigkill_preceded_by_sigterm_grace`: a forwarded SIGHUP
followed by an external SIGTERM produces the trace
`[signal 1, SIGTERM, sleep 25, SIGKILL]`, whose SIGKILL is preceded by
the SIGTERM-and-grace pair. -/
theorem sigkill_preceded_by_sigterm_grace_witness :
    ∃ pre2 g,
      [BridgeAction.signalChild 1, BridgeAction.signalChild sigTERM,
        BridgeAction.sleepSec sigtermGracePeriodDefaultSec] =
        pre2 ++ [BridgeAction.signalChild sigTERM, BridgeAction.sleepSec g] :=
  sigkill_preceded_by_sigterm_grace sigtermGracePeriodDefaultSec
    [.osSignal true 1, .osSignal true sigTERM] (by decide)
    [BridgeAction.signalChild 1, BridgeAction.signalChild sigTERM,
      BridgeAction.sleepSec sigtermGracePeriodDefaultSec] [] (by decide)

end Sfncli
